import Mathlib

/-
Verification of the coin-cache game core in `src/main.ts` (Geocoin Carrier).

The development shallowly embeds the game-logic functions of `main.ts`:
JavaScript numbers are embedded as exact rationals (ℚ) where they hold
coordinates and probabilities, and as ℤ/ℕ where the code produces integers
(`Math.floor`, array indices).  Mutable arrays become lists threaded through
explicit state; `Map` objects become association lists; `localStorage`
becomes an `Option` field of the state.  DOM/Leaflet rendering calls have no
effect on game state and are omitted.
-/

/-- A coin token: origin cell row `i`, origin cell column `j`, and the
serial number assigned at initial cache creation (`main.ts` lines 75-79;
serials come from `Array.from` indices, hence ℕ). -/
structure Coin where
  i : Int
  j : Int
  serial : Nat
deriving DecidableEq, Repr

/-- Embedding of `collectCoin` (`main.ts` lines 277-282).  The source guards
with `cacheCoins.length > 0`, which is exactly the cons pattern; `shift()`
removes the first element and `push` appends it to the player inventory.
The function body has no `return` statement, so a call evaluates to
`undefined`; the second component models the returned value inside the
space of boolean-or-undefined values, with `none` standing for `undefined`.
The first component is the resulting (cacheCoins, playerCoins) pair. -/
def collectCoin : List Coin → List Coin → (List Coin × List Coin) × Option Bool
  | coin :: rest, playerCoins => ((rest, playerCoins ++ [coin]), none)
  | [], playerCoins => (([], playerCoins), none)

/-- Embedding of `depositCoin` (`main.ts` lines 285-290).  The source guards
with `playerCoins.length > 0` (equivalently `getLast? = some`), `pop()`
removes the last inventory element and `unshift` puts it at the front of the
cache.  As with `collectCoin`, the body returns `undefined`, modelled as
`none`. -/
def depositCoin (cacheCoins playerCoins : List Coin) :
    (List Coin × List Coin) × Option Bool :=
  match playerCoins.getLast? with
  | some coin => ((coin :: cacheCoins, playerCoins.dropLast), none)
  | none => ((cacheCoins, playerCoins), none)

/-- Saved blob structure produced by `saveGameState` (`main.ts` lines
205-212): `JSON.stringify` of the record with player position, path and
collected coins.  `JSON.stringify` is injective on these records, so the
blob is modelled structurally rather than as the string itself. -/
structure GameBlob where
  playerPosition : ℚ × ℚ
  path : List (ℚ × ℚ)
  collectedCoins : List Coin
deriving DecidableEq, Repr

/-- In-memory game state persisted by save/load: `player.lat`, `player.lng`,
`pathHistory` and `playerCoins` (`main.ts` lines 98, 131-133, 173). -/
structure GameStateRec where
  playerLat : ℚ
  playerLng : ℚ
  pathHistory : List (ℚ × ℚ)
  playerCoins : List Coin
deriving DecidableEq, Repr

/-- Embedding of `saveGameState` (`main.ts` lines 205-212). -/
def saveGameState (s : GameStateRec) : GameBlob :=
  { playerPosition := (s.playerLat, s.playerLng)
    path := s.pathHistory.map (fun p => (p.1, p.2))
    collectedCoins := s.playerCoins }

/-- What `localStorage.getItem("gameState")` may hold: either a string that
parses to a well-formed blob, or a corrupt / incompatible-format string. -/
inductive StoredBlob
  | wellFormed (b : GameBlob)
  | malformed
deriving DecidableEq, Repr

/-- The `JSON.parse(savedState)` + destructuring step of `loadGameState`
(`main.ts` line 218): it throws (modelled as `Except.error`) on a corrupt
string, and accessing the destructured fields throws on an
incompatible-format one; there is no `try`/`catch` around it in the source. -/
def parseGameState : StoredBlob → Except Unit GameBlob
  | .wellFormed b => .ok b
  | .malformed => .error ()

/-- Embedding of `loadGameState` (`main.ts` lines 215-229).  With no saved
item the function does nothing; otherwise it parses the blob (which may
throw — the exception propagates, there is no handler), overwrites the
player position, and PUSHES the saved path and coins onto the existing
`pathHistory` and `playerCoins` arrays. -/
def loadGameState (saved : Option StoredBlob) (s : GameStateRec) :
    Except Unit GameStateRec :=
  match saved with
  | none => .ok s
  | some sb =>
      match parseGameState sb with
      | .error e => .error e
      | .ok blob =>
          .ok { playerLat := blob.playerPosition.1
                playerLng := blob.playerPosition.2
                pathHistory := s.pathHistory ++ blob.path.map (fun p => (p.1, p.2))
                playerCoins := s.playerCoins ++ blob.collectedCoins }

/-- The fresh-game state: player at the fixed home `location`
(`main.ts` line 83) with empty path history and empty inventory. -/
def freshGameState : GameStateRec :=
  { playerLat := 36.98949379578401
    playerLng := -122.06277128548504
    pathHistory := []
    playerCoins := [] }

/-- The state visible to one cache's popup handlers: the live cache's token
array `cache.tokens`, the global `playerCoins`, the `cacheStates` entry for
this cache's cell (the memento string, modelled by the token list it
serializes, `JSON.stringify` being injective), and the `localStorage`
`"gameState"` item. -/
structure CellGameState where
  cacheTokens : List Coin
  playerCoins : List Coin
  tableEntry : Option (List Coin)
  savedSnapshot : Option GameBlob
deriving DecidableEq, Repr

/-- Embedding of the popup `#collect` click listener (`main.ts` lines
309-315): it calls `collectCoin(cache.tokens)` and then
`updateCoinCounter`, which only rewrites DOM nodes.  Neither
`cacheStates.set` nor `saveGameState` appears in the handler. -/
def collectClick (s : CellGameState) : CellGameState :=
  let r := collectCoin s.cacheTokens s.playerCoins
  { s with cacheTokens := r.1.1, playerCoins := r.1.2 }

/-- Embedding of the popup `#deposit` click listener (`main.ts` lines
316-322): it calls `depositCoin(cache.tokens)` and then
`updateCoinCounter` (DOM only); no commit, no save. -/
def depositClick (s : CellGameState) : CellGameState :=
  let r := depositCoin s.cacheTokens s.playerCoins
  { s with cacheTokens := r.1.1, playerCoins := r.1.2 }

/-- A concrete one-coin cache freshly spawned at cell (0,0): `spawnCache`
has just committed the memento of `[coin000]` into `cacheStates`. -/
def coin000 : Coin := ⟨0, 0, 0⟩

/-- Cell-local state right after `spawnCache(0, 0, …)` on a one-coin cache:
live tokens `[coin000]`, empty inventory, table entry committed at spawn
time, nothing yet in `localStorage`. -/
def c1CollectStart : CellGameState :=
  { cacheTokens := [coin000]
    playerCoins := []
    tableEntry := some [coin000]
    savedSnapshot := none }

/-- Cell-local state for the deposit scenario: empty live cache, one coin
in the inventory, table entry committed at spawn time. -/
def c1DepositStart : CellGameState :=
  { cacheTokens := []
    playerCoins := [coin000]
    tableEntry := some []
    savedSnapshot := none }

/-- The key string passed to `luck` for the spawn decision in
`refreshCaches` (`main.ts` line 361): `[cell.i, cell.j].toString()`, which
for integer numbers renders as the row and column separated by a comma. -/
def spawnDecisionKey (i j : Int) : String :=
  toString i ++ "," ++ toString j

/-- The key string passed to `luck` for the initial coin count in
`createCache` (`main.ts` line 260): `[i, j].toString()`. -/
def initialCountKey (i j : Int) : String :=
  toString i ++ "," ++ toString j

/-- A grid cell object as interned by `boardClass` (`main.ts` lines 8-11,
27-36).  The source stores fresh object literals in `knownCells` and
compares them by reference; the `id` field records the allocation order and
models object identity, so that reference equality of two lookups is
expressible as equality of `CellObj` values. -/
structure CellObj where
  i : Int
  j : Int
  id : Nat
deriving DecidableEq, Repr

/-- The mutable state of a `boardClass` instance: the `knownCells` map and
the allocation counter backing `CellObj.id`.  The source keys the map by
`[i, j].toString()`; that string determines and is determined by the
integer pair (i, j), so the map is keyed here by the pair itself. -/
structure BoardState where
  knownCells : List ((Int × Int) × CellObj)
  nextId : Nat
deriving DecidableEq, Repr

/-- The board as constructed (`main.ts` lines 20-24, 88): an empty
`knownCells` map. -/
def emptyBoard : BoardState := ⟨[], 0⟩

/-- Embedding of `boardClass.getRealCell` (`main.ts` lines 27-36): if the
key is not yet known, a fresh cell object is allocated and stored; then the
canonical stored cell is returned. -/
def getRealCell (st : BoardState) (i j : Int) : BoardState × CellObj :=
  match st.knownCells.lookup (i, j) with
  | some c => (st, c)
  | none =>
      let c : CellObj := ⟨i, j, st.nextId⟩
      (⟨((i, j), c) :: st.knownCells, st.nextId + 1⟩, c)

/-- Embedding of `boardClass.getCellPoint` (`main.ts` lines 39-45):
`i = Math.floor(point.lat / this.tileWidth)`,
`j = Math.floor(point.lng / this.tileWidth)`, then intern via
`getRealCell`.  `t` is the board's `tileWidth`. -/
def getCellPoint (st : BoardState) (t lat lng : ℚ) : BoardState × CellObj :=
  getRealCell st (Int.floor (lat / t)) (Int.floor (lng / t))

/-- The offset values visited by one loop of `getNearbyCells` (`main.ts`
lines 61-62): `for (let i = -radius; i <= radius; i += this.tileWidth)`
with `radius = R * t`, under EXACT rational arithmetic: with no rounding
the loop variable takes exactly the values `-R*t + k*t` for `k = 0 … 2R`.
This is the idealization the spec intends; the loop as actually executed
accumulates binary64 rounding error, which is modelled separately below
(`floatLoopOffsets`) and falls one iteration short at the game's
parameters. -/
def loopOffsets (R : Nat) (t : ℚ) : List ℚ :=
  (List.range (2 * R + 1)).map (fun (k : ℕ) => -(R : ℚ) * t + (k : ℚ) * t)

/-- The inner loop of `getNearbyCells` (`main.ts` lines 62-67): for each
offset `dj`, push `getCellPoint(latLng(lat + di, lng + dj))`. -/
def nearbyInner (t lat lng di : ℚ) : List ℚ → BoardState → BoardState × List CellObj
  | [], st => (st, [])
  | dj :: rest, st =>
      let r := getCellPoint st t (lat + di) (lng + dj)
      let r2 := nearbyInner t lat lng di rest r.1
      (r2.1, r.2 :: r2.2)

/-- The outer loop of `getNearbyCells` (`main.ts` lines 61-68): iterate the
row offsets, running the full inner loop for each. -/
def nearbyOuter (t lat lng : ℚ) (djs : List ℚ) : List ℚ → BoardState → BoardState × List CellObj
  | [], st => (st, [])
  | di :: rest, st =>
      let r := nearbyInner t lat lng di djs st
      let r2 := nearbyOuter t lat lng djs rest r.1
      (r2.1, r.2 ++ r2.2)

/-- Embedding of `boardClass.getNearbyCells` (`main.ts` lines 57-72) for a
board with tile width `t` and neighborhood radius `R` (the game uses
`t = 1e-4`, `R = 8`), under exact rational arithmetic for sampling and
flooring.  The binary64 enumeration the code actually performs is modelled
below by `floatNearbyCellCoords`. -/
def getNearbyCells (st : BoardState) (t : ℚ) (R : Nat) (lat lng : ℚ) :
    BoardState × List CellObj :=
  nearbyOuter t lat lng (loopOffsets R t) (loopOffsets R t) st

/-- Well-formedness of the interning table: every stored cell object
carries exactly the coordinates of its key.  This holds for the empty map
and is preserved by every lookup. -/
def BoardWF (st : BoardState) : Prop :=
  ∀ p ∈ st.knownCells, p.2.i = p.1.1 ∧ p.2.j = p.1.2

/-- A finite IEEE-754 binary64 value, represented exactly as `m * 2^e` with
integer mantissa and exponent (zero, or `2^52 ≤ |m| < 2^53`).  JavaScript
numbers are binary64; every operation rounds its exact result to the
nearest representable value, ties to even.  The magnitudes this program
computes with lie between 1e-4 and a few hundred, far from overflow and
subnormal range, so this normalized-range model is exact for them. -/
structure FP where
  m : Int
  e : Int
deriving DecidableEq, Repr

/-- Helper loop for rounding: double `D` until `N < D`, returning the final
`D` and the number of doublings (fuel bounds the iteration count). -/
def growUntilGt : ℕ → ℕ → ℕ → ℕ × ℕ
  | 0, _, D => (D, 0)
  | fuel + 1, N, D =>
      if N < D then (D, 0)
      else
        let r := growUntilGt fuel N (D * 2)
        (r.1, r.2 + 1)

/-- Helper loop for rounding: double `N` until `C ≤ N`, returning the final
`N` and the number of doublings. -/
def growUntilGe : ℕ → ℕ → ℕ → ℕ × ℕ
  | 0, N, _ => (N, 0)
  | fuel + 1, N, C =>
      if C ≤ N then (N, 0)
      else
        let r := growUntilGe fuel (N * 2) C
        (r.1, r.2 + 1)

/-- Round the exact rational `(n/d) * 2^e0` to the nearest binary64 value,
ties to even — the rounding every IEEE-754 operation applies to its exact
result.  The two loops scale the magnitude into the mantissa window
`[2^52, 2^53)`; `q0`/`rem` then give the truncated mantissa and the exact
remainder deciding the rounding direction.  Fuel 4000 covers every exponent
reachable in this program by a wide margin. -/
def fpOfIntFrac (n : Int) (d : ℕ) (e0 : Int) : FP :=
  if n = 0 ∨ d = 0 then ⟨0, 0⟩
  else
    let N := n.natAbs
    let g := growUntilGt 4000 N (2 ^ 53 * d)
    let t := g.2
    let C := g.1 / 2
    let g2 := growUntilGe 4000 N C
    let N2 := g2.1
    let u := g2.2
    let Dfin := d * 2 ^ t
    let q0 := N2 / Dfin
    let rem := N2 % Dfin
    let q : ℕ :=
      if 2 * rem < Dfin then q0
      else if Dfin < 2 * rem then q0 + 1
      else if q0 % 2 = 0 then q0 else q0 + 1
    let qe : ℕ × Int :=
      if q = 2 ^ 53 then (2 ^ 52, e0 + (t : Int) - (u : Int) + 1)
      else (q, e0 + (t : Int) - (u : Int))
    ⟨if n < 0 then -(qe.1 : Int) else (qe.1 : Int), qe.2⟩

/-- Binary64 addition: round the exact sum (taken at the smaller
exponent). -/
def fpAdd (x y : FP) : FP :=
  let emin := min x.e y.e
  fpOfIntFrac (x.m * 2 ^ (x.e - emin).toNat + y.m * 2 ^ (y.e - emin).toNat) 1 emin

/-- Binary64 multiplication: round the exact product. -/
def fpMul (x y : FP) : FP :=
  fpOfIntFrac (x.m * y.m) 1 (x.e + y.e)

/-- Binary64 division: round the exact quotient. -/
def fpDiv (x y : FP) : FP :=
  fpOfIntFrac (if y.m < 0 then -x.m else x.m) y.m.natAbs (x.e - y.e)

/-- Binary64 negation (exact in IEEE-754). -/
def fpNeg (x : FP) : FP := ⟨-x.m, x.e⟩

/-- Binary64 comparison `x <= y`: exact value comparison on finite
doubles. -/
def fpLe (x y : FP) : Bool :=
  let emin := min x.e y.e
  decide (x.m * 2 ^ (x.e - emin).toNat ≤ y.m * 2 ^ (y.e - emin).toNat)

/-- `Math.floor` of a binary64 value (exact; the quotients floored here are
cell indices of magnitude far below 2^53). -/
def fpFloor (x : FP) : Int :=
  if 0 ≤ x.e then x.m * 2 ^ x.e.toNat
  else Int.fdiv x.m (2 ^ (-x.e).toNat)

/-- The double denoted by the literal `1e-4` (`tileSize`, `main.ts` line
85). -/
def tileSizeFP : FP := fpOfIntFrac 1 (10 ^ 4) 0

/-- The double `radius = this.neighborhoodRadius * this.tileWidth`
(`main.ts` line 59) for the game's board (`gridSteps = 8`, line 86): the
binary64 product `8 * 1e-4`. -/
def gameRadiusFP : FP := fpMul (fpOfIntFrac 8 1 0) tileSizeFP

/-- The double denoted by the home-latitude literal `36.98949379578401`
(`main.ts` line 83). -/
def homeLatFP : FP := fpOfIntFrac 3698949379578401 (10 ^ 14) 0

/-- The double denoted by the home-longitude literal `-122.06277128548504`
(`main.ts` line 83). -/
def homeLngFP : FP := fpOfIntFrac (-12206277128548504) (10 ^ 14) 0

/-- The loop `for (let i = -radius; i <= radius; i += this.tileWidth)` of
`getNearbyCells` (`main.ts` line 61) under real binary64 semantics: the
accumulator `i` is a double, `i += tileWidth` rounds, and the bound check
compares doubles.  The fuel argument only bounds the iteration count; 64 is
ample, as each iteration strictly increases `i` by about one tile width. -/
def floatLoopOffsets (t radius : FP) : ℕ → FP → List FP
  | 0, _ => []
  | fuel + 1, i =>
      if fpLe i radius then i :: floatLoopOffsets t radius fuel (fpAdd i t)
      else []

/-- `Math.floor(coord / this.tileWidth)` of `boardClass.getCellPoint`
(`main.ts` lines 41-42) under binary64 semantics. -/
def floatCellIndex (t coord : FP) : Int := fpFloor (fpDiv coord t)

/-- The (row, column) pairs enumerated by `boardClass.getNearbyCells`
(`main.ts` lines 57-72) under binary64 semantics: both axes step the same
accumulated offset sequence, each sampled coordinate is `lat + i` /
`lng + j` (rounded double additions), and each sample is floored to its
cell indices.  Cell interning does not affect which coordinates appear, so
this coordinate-level model suffices for coverage questions. -/
def floatNearbyCellCoords (t radius lat lng : FP) : List (Int × Int) :=
  (floatLoopOffsets t radius 64 (fpNeg radius)).flatMap (fun di =>
    (floatLoopOffsets t radius 64 (fpNeg radius)).map (fun dj =>
      (floatCellIndex t (fpAdd lat di), floatCellIndex t (fpAdd lng dj))))

/-- C2: collecting from a cache holding [A,B,C] with an empty inventory
removes the first token and appends it to the inventory, giving
inventory=[A] and cache=[B,C]; depositing from that state removes the last
inventory token and puts it at the front of the cache, restoring
cache=[A,B,C] and inventory=[]. -/
theorem collect_then_deposit_restores_order (A B C : Coin) :
    (collectCoin [A, B, C] []).1 = ([B, C], [A]) ∧
    (depositCoin (collectCoin [A, B, C] []).1.1 (collectCoin [A, B, C] []).1.2).1
      = ([A, B, C], []) := by
  constructor
  · rfl
  · rfl

/-- Helper: the conserved-multiset statement for `collectCoin`. -/
theorem collectCoin_perm (cacheCoins playerCoins : List Coin) :
    ((collectCoin cacheCoins playerCoins).1.1 ++
        (collectCoin cacheCoins playerCoins).1.2).Perm (cacheCoins ++ playerCoins) := by
  cases cacheCoins with
  | nil => simp [collectCoin]
  | cons c rest =>
      simp only [collectCoin, List.cons_append]
      rw [← List.append_assoc]
      exact List.perm_append_singleton c (rest ++ playerCoins)

/-- Helper: the conserved-multiset statement for `depositCoin`. -/
theorem depositCoin_perm (cacheCoins playerCoins : List Coin) :
    ((depositCoin cacheCoins playerCoins).1.1 ++
        (depositCoin cacheCoins playerCoins).1.2).Perm (cacheCoins ++ playerCoins) := by
  unfold depositCoin
  cases h : playerCoins.getLast? with
  | none => simp
  | some c =>
      have hl : playerCoins.dropLast ++ [c] = playerCoins :=
        List.dropLast_append_getLast? c h
      have key : ((c :: cacheCoins) ++ playerCoins.dropLast).Perm
          (cacheCoins ++ (playerCoins.dropLast ++ [c])) := by
        rw [← List.append_assoc]
        exact (List.perm_append_singleton c (cacheCoins ++ playerCoins.dropLast)).symm
      rw [hl] at key
      exact key

/-- C10: collect and deposit conserve coins: each call preserves the sum of
the cache's and the inventory's lengths, and the combined coin collection
is a permutation of the previous one (same multiset; no coin created,
destroyed, or with altered fields). -/
theorem collect_deposit_conserve_coins (cacheCoins playerCoins : List Coin) :
    ((collectCoin cacheCoins playerCoins).1.1 ++
        (collectCoin cacheCoins playerCoins).1.2).Perm (cacheCoins ++ playerCoins) ∧
    (collectCoin cacheCoins playerCoins).1.1.length +
        (collectCoin cacheCoins playerCoins).1.2.length
      = cacheCoins.length + playerCoins.length ∧
    ((depositCoin cacheCoins playerCoins).1.1 ++
        (depositCoin cacheCoins playerCoins).1.2).Perm (cacheCoins ++ playerCoins) ∧
    (depositCoin cacheCoins playerCoins).1.1.length +
        (depositCoin cacheCoins playerCoins).1.2.length
      = cacheCoins.length + playerCoins.length := by
  refine ⟨collectCoin_perm _ _, ?_, depositCoin_perm _ _, ?_⟩
  · have h := (collectCoin_perm cacheCoins playerCoins).length_eq
    simpa using h
  · have h := (depositCoin_perm cacheCoins playerCoins).length_eq
    simpa using h

/-- C6 (amended): collect on an empty cache and deposit with an empty
inventory are silent no-ops leaving both collections unchanged; however,
both functions are void — every call returns `undefined` (`none`), never a
boolean. -/
theorem transfer_empty_noop_void_return (cacheCoins playerCoins : List Coin) :
    collectCoin [] playerCoins = (([], playerCoins), none) ∧
    depositCoin cacheCoins [] = ((cacheCoins, []), none) ∧
    (collectCoin cacheCoins playerCoins).2 = none ∧
    (depositCoin cacheCoins playerCoins).2 = none := by
  refine ⟨rfl, rfl, ?_, ?_⟩
  · cases cacheCoins <;> rfl
  · unfold depositCoin
    cases playerCoins.getLast? <;> rfl

/-- C6 (counterexample): collecting from an empty cache evaluates to
`undefined`, not to the boolean `false` the claim requires; likewise for
depositing with an empty inventory. -/
theorem collect_empty_returns_undefined_not_false :
    (collectCoin [] []).2 = none ∧
    ¬ (collectCoin [] []).2 = some false ∧
    ¬ (depositCoin [] []).2 = some false := by
  decide

/-- C1 (code evaluation at the failing input): after a successful collect
click on a freshly spawned one-coin cache at (0,0), the live tokens and the
inventory have changed, but the registry's serialized entry for the cell
still holds the pre-collect sequence — it was not overwritten with the new
sequence — and no persistence save happened.  The deposit click behaves the
same way. -/
theorem collect_deposit_click_no_commit_no_save :
    (collectClick c1CollectStart).cacheTokens = [] ∧
    (collectClick c1CollectStart).playerCoins = [coin000] ∧
    (collectClick c1CollectStart).tableEntry = c1CollectStart.tableEntry ∧
    ¬ (collectClick c1CollectStart).tableEntry
        = some (collectClick c1CollectStart).cacheTokens ∧
    (collectClick c1CollectStart).savedSnapshot = none ∧
    (depositClick c1DepositStart).cacheTokens = [coin000] ∧
    (depositClick c1DepositStart).tableEntry = c1DepositStart.tableEntry ∧
    ¬ (depositClick c1DepositStart).tableEntry
        = some (depositClick c1DepositStart).cacheTokens ∧
    (depositClick c1DepositStart).savedSnapshot = none := by
  decide

/-- C3: saving any game state and loading the blob back into the fresh
(empty) state reproduces exactly the player position, the path history and
the inventory. -/
theorem load_save_roundtrip (s : GameStateRec) :
    loadGameState (some (.wellFormed (saveGameState s))) freshGameState = .ok s := by
  cases s with
  | mk lat lng path coins =>
      simp [loadGameState, parseGameState, saveGameState, freshGameState]

/-- C4 (code evaluation at the failing input): loading a malformed persisted
blob propagates the `JSON.parse` exception — the call crashes rather than
returning any game state, in particular it does not fall back to the fresh
default state. -/
theorem load_malformed_throws :
    loadGameState (some .malformed) freshGameState = .error () ∧
    ¬ ∃ s : GameStateRec, loadGameState (some .malformed) freshGameState = .ok s := by
  constructor
  · rfl
  · rintro ⟨s, h⟩
    rw [show loadGameState (some .malformed) freshGameState = .error () from rfl] at h
    exact Except.noConfusion h

/-- C5 (counterexample): at cell (0,0) the key used for the spawn decision
and the key used for the initial coin count are the same string — they are
not distinct as claimed. -/
theorem spawn_and_count_keys_collide_at_origin :
    spawnDecisionKey 0 0 = initialCountKey 0 0 := rfl

/-- C5 (amended): for every cell, the generator key of the spawn decision
and the generator key of the initial coin count are the identical string —
neither use appends a disambiguating tag, so the two uses of the generator
on the same cell collide. -/
theorem spawn_and_count_keys_equal (i j : Int) :
    spawnDecisionKey i j = initialCountKey i j := rfl

/-- Helper: when the key is already interned, `getRealCell` returns the
stored object and leaves the board untouched. -/
theorem getRealCell_found {st : BoardState} {i j : Int} {c : CellObj}
    (h : st.knownCells.lookup (i, j) = some c) :
    getRealCell st i j = (st, c) := by
  unfold getRealCell
  rw [h]

/-- Helper: after any `getRealCell`, the key is interned and maps to the
returned object. -/
theorem getRealCell_lookup_self (st : BoardState) (i j : Int) :
    ((getRealCell st i j).1).knownCells.lookup (i, j)
      = some (getRealCell st i j).2 := by
  unfold getRealCell
  cases h : st.knownCells.lookup (i, j) with
  | some c => simpa using h
  | none => simp [List.lookup]

/-- C7: two points whose coordinates floor-divide to the same (row, column)
resolve to the identical interned cell object — the second lookup returns
the very object (same allocation id, hence the same reference) produced by
the first, and does not change the board, so repeated lookups are
reference-comparable.  This covers edge points, which enter through the
floor hypothesis. -/
theorem getCellPoint_canonical (st : BoardState) (t lat1 lng1 lat2 lng2 : ℚ)
    (hrow : Int.floor (lat1 / t) = Int.floor (lat2 / t))
    (hcol : Int.floor (lng1 / t) = Int.floor (lng2 / t)) :
    (getCellPoint (getCellPoint st t lat1 lng1).1 t lat2 lng2).2
      = (getCellPoint st t lat1 lng1).2 ∧
    (getCellPoint (getCellPoint st t lat1 lng1).1 t lat2 lng2).1
      = (getCellPoint st t lat1 lng1).1 := by
  have h2 : getCellPoint (getCellPoint st t lat1 lng1).1 t lat2 lng2
      = ((getCellPoint st t lat1 lng1).1, (getCellPoint st t lat1 lng1).2) := by
    show getRealCell _ _ _ = _
    rw [← hrow, ← hcol]
    exact getRealCell_found (getRealCell_lookup_self st _ _)
  rw [h2]
  exact ⟨rfl, rfl⟩

/-- Witness for C7 at tile width 1 and the concrete points (1/2, 1/2) and
(3/4, 1/4), both lying in cell (0, 0) of the empty board. -/
theorem getCellPoint_canonical_witness :
    Int.floor ((1 : ℚ) / 2 / 1) = Int.floor ((3 : ℚ) / 4 / 1) ∧
    Int.floor ((1 : ℚ) / 2 / 1) = Int.floor ((1 : ℚ) / 4 / 1) ∧
    ((getCellPoint (getCellPoint emptyBoard 1 (1 / 2) (1 / 2)).1 1 (3 / 4) (1 / 4)).2
        = (getCellPoint emptyBoard 1 (1 / 2) (1 / 2)).2 ∧
      (getCellPoint (getCellPoint emptyBoard 1 (1 / 2) (1 / 2)).1 1 (3 / 4) (1 / 4)).1
        = (getCellPoint emptyBoard 1 (1 / 2) (1 / 2)).1) := by
  have h1 : Int.floor ((1 : ℚ) / 2 / 1) = Int.floor ((3 : ℚ) / 4 / 1) := by norm_num
  have h2 : Int.floor ((1 : ℚ) / 2 / 1) = Int.floor ((1 : ℚ) / 4 / 1) := by norm_num
  exact ⟨h1, h2, getCellPoint_canonical emptyBoard 1 (1 / 2) (1 / 2) (3 / 4) (1 / 4) h1 h2⟩

/-- Helper: a successful association-list lookup yields a stored pair. -/
theorem lookup_mem {α β : Type} [BEq α] [LawfulBEq α] {l : List (α × β)} {k : α} {c : β}
    (h : l.lookup k = some c) : (k, c) ∈ l := by
  induction l with
  | nil => simp [List.lookup] at h
  | cons p rest ih =>
      cases p with
      | mk a b =>
          rw [List.lookup_cons] at h
          cases hk : (k == a) with
          | true =>
              rw [hk] at h
              simp only [Option.some.injEq] at h
              subst h
              simp [eq_of_beq hk]
          | false =>
              rw [hk] at h
              exact List.mem_cons_of_mem _ (ih h)

/-- Helper: on a well-formed board, the cell returned for (i, j) carries
exactly those coordinates, whether found or freshly allocated. -/
theorem getRealCell_coords {st : BoardState} (hwf : BoardWF st) (i j : Int) :
    (getRealCell st i j).2.i = i ∧ (getRealCell st i j).2.j = j := by
  unfold getRealCell
  cases h : st.knownCells.lookup (i, j) with
  | some c =>
      have hm := lookup_mem h
      have := hwf _ hm
      simpa using this
  | none => simp

/-- Helper: interning preserves well-formedness of the board. -/
theorem getRealCell_wf {st : BoardState} (hwf : BoardWF st) (i j : Int) :
    BoardWF (getRealCell st i j).1 := by
  unfold getRealCell
  cases h : st.knownCells.lookup (i, j) with
  | some c => simpa using hwf
  | none =>
      intro p hp
      simp only at hp
      rcases List.mem_cons.mp hp with rfl | hp'
      · exact ⟨rfl, rfl⟩
      · exact hwf _ hp'

/-- Helper: the cell for a point carries the floor-divided coordinates. -/
theorem getCellPoint_coords {st : BoardState} (hwf : BoardWF st) (t lat lng : ℚ) :
    (getCellPoint st t lat lng).2.i = Int.floor (lat / t) ∧
    (getCellPoint st t lat lng).2.j = Int.floor (lng / t) :=
  getRealCell_coords hwf _ _

/-- Helper: `getCellPoint` preserves board well-formedness. -/
theorem getCellPoint_wf {st : BoardState} (hwf : BoardWF st) (t lat lng : ℚ) :
    BoardWF (getCellPoint st t lat lng).1 :=
  getRealCell_wf hwf _ _

/-- Helper: the inner loop yields one cell per offset, in order, whose
coordinates are the floors of the sampled point, and keeps the board
well-formed. -/
theorem nearbyInner_spec (t lat lng di : ℚ) (djs : List ℚ) {st : BoardState}
    (hwf : BoardWF st) :
    BoardWF (nearbyInner t lat lng di djs st).1 ∧
    (nearbyInner t lat lng di djs st).2.map (fun c => (c.i, c.j))
      = djs.map (fun dj => (Int.floor ((lat + di) / t), Int.floor ((lng + dj) / t))) := by
  induction djs generalizing st with
  | nil => exact ⟨hwf, rfl⟩
  | cons dj rest ih =>
      have hwf1 := getCellPoint_wf hwf t (lat + di) (lng + dj)
      obtain ⟨hwf2, hmap⟩ := ih hwf1
      obtain ⟨hci, hcj⟩ := getCellPoint_coords hwf t (lat + di) (lng + dj)
      refine ⟨hwf2, ?_⟩
      show ((getCellPoint st t (lat + di) (lng + dj)).2
          :: (nearbyInner t lat lng di rest (getCellPoint st t (lat + di) (lng + dj)).1).2).map
            (fun c => (c.i, c.j)) = _
      rw [List.map_cons, hmap, hci, hcj, List.map_cons]

/-- Helper: the outer loop concatenates one inner pass per row offset. -/
theorem nearbyOuter_spec (t lat lng : ℚ) (djs dis : List ℚ) {st : BoardState}
    (hwf : BoardWF st) :
    BoardWF (nearbyOuter t lat lng djs dis st).1 ∧
    (nearbyOuter t lat lng djs dis st).2.map (fun c => (c.i, c.j))
      = dis.flatMap (fun di => djs.map
          (fun dj => (Int.floor ((lat + di) / t), Int.floor ((lng + dj) / t)))) := by
  induction dis generalizing st with
  | nil => exact ⟨hwf, rfl⟩
  | cons di rest ih =>
      obtain ⟨hwf1, hmap1⟩ := nearbyInner_spec t lat lng di djs hwf
      obtain ⟨hwf2, hmap2⟩ := ih hwf1
      refine ⟨hwf2, ?_⟩
      show ((nearbyInner t lat lng di djs st).2
          ++ (nearbyOuter t lat lng djs rest (nearbyInner t lat lng di djs st).1).2).map
            (fun c => (c.i, c.j)) = _
      rw [List.map_append, hmap1, hmap2, List.flatMap_cons]

/-- Helper: sampling a point displaced by the k-th loop offset lands in the
cell displaced by exactly k - R rows (or columns). -/
theorem floor_offset (x t : ℚ) (ht : 0 < t) (R k : ℕ) :
    Int.floor ((x + (-(R : ℚ) * t + (k : ℚ) * t)) / t)
      = Int.floor (x / t) + ((k : ℤ) - (R : ℤ)) := by
  have htne : t ≠ 0 := ne_of_gt ht
  have hdiv : (x + (-(R : ℚ) * t + (k : ℚ) * t)) / t
      = x / t + (((k : ℤ) - (R : ℤ) : ℤ) : ℚ) := by
    push_cast
    field_simp
    ring
  rw [hdiv, Int.floor_add_int]

/-- Helper: the coordinates of the cells returned by `getNearbyCells` are
exactly the (2R+1) x (2R+1) grid square centred on the cell containing the
input point, in row-major order. -/
theorem getNearbyCells_coords (st : BoardState) (t : ℚ) (R : ℕ) (lat lng : ℚ)
    (hwf : BoardWF st) (ht : 0 < t) :
    (getNearbyCells st t R lat lng).2.map (fun c => (c.i, c.j))
      = (List.range (2 * R + 1)).flatMap (fun (a : ℕ) => (List.range (2 * R + 1)).map
          (fun (b : ℕ) => ((Int.floor (lat / t) + ((a : ℤ) - (R : ℤ)) : ℤ),
                     (Int.floor (lng / t) + ((b : ℤ) - (R : ℤ)) : ℤ)))) := by
  obtain ⟨-, hmap⟩ := nearbyOuter_spec t lat lng (loopOffsets R t) (loopOffsets R t) hwf
  rw [show getNearbyCells st t R lat lng
      = nearbyOuter t lat lng (loopOffsets R t) (loopOffsets R t) st from rfl, hmap]
  rw [loopOffsets, List.flatMap_map]
  refine List.flatMap_congr (fun a _ => ?_)
  rw [List.map_map]
  refine List.map_congr_left (fun b _ => ?_)
  simp only [Function.comp_apply]
  rw [floor_offset lat t ht R a, floor_offset lng t ht R b]

/-- Supporting analysis, exact-arithmetic idealization: were the loop
arithmetic exact (no binary64 rounding), the enumeration would contain each
cell at most once and cover exactly the cells within the neighborhood
radius in both axes, bounds inclusive.  This is the behavior the spec
intends; the C8 theorem below shows the binary64 loop falls short of it. -/
theorem exact_arith_nearby_nodup_and_range (st : BoardState) (t : ℚ) (R : ℕ)
    (lat lng : ℚ) (hwf : BoardWF st) (ht : 0 < t) :
    (getNearbyCells st t R lat lng).2.Nodup ∧
    (∀ c ∈ (getNearbyCells st t R lat lng).2,
        |c.i - Int.floor (lat / t)| ≤ (R : ℤ) ∧ |c.j - Int.floor (lng / t)| ≤ (R : ℤ)) ∧
    (∀ i j : ℤ, |i - Int.floor (lat / t)| ≤ (R : ℤ) → |j - Int.floor (lng / t)| ≤ (R : ℤ) →
        ∃ c ∈ (getNearbyCells st t R lat lng).2, c.i = i ∧ c.j = j) := by
  have hcoords := getNearbyCells_coords st t R lat lng hwf ht
  have hLnodup : ((getNearbyCells st t R lat lng).2.map (fun c => (c.i, c.j))).Nodup := by
    rw [hcoords]
    rw [List.nodup_flatMap]
    constructor
    · intro a _
      refine List.Nodup.map ?_ (List.nodup_range _)
      intro b1 b2 hb
      simp only [Prod.mk.injEq] at hb
      omega
    · refine List.Pairwise.imp ?_ (List.pairwise_lt_range _)
      intro a1 a2 hlt
      simp only [Function.onFun]
      intro x hx1 hx2
      simp only [List.mem_map, List.mem_range] at hx1 hx2
      obtain ⟨b1, _, rfl⟩ := hx1
      obtain ⟨b2, _, heq⟩ := hx2
      simp only [Prod.mk.injEq] at heq
      omega
  refine ⟨List.Nodup.of_map _ hLnodup, ?_, ?_⟩
  · intro c hc
    have hm : (c.i, c.j) ∈ (getNearbyCells st t R lat lng).2.map (fun c => (c.i, c.j)) :=
      List.mem_map_of_mem _ hc
    rw [hcoords] at hm
    simp only [List.mem_flatMap, List.mem_map, List.mem_range] at hm
    obtain ⟨a, ha, b, hb, heq⟩ := hm
    simp only [Prod.mk.injEq] at heq
    rw [abs_le, abs_le]
    omega
  · intro i j hi hj
    rw [abs_le] at hi hj
    have hmem : (i, j) ∈ (getNearbyCells st t R lat lng).2.map (fun c => (c.i, c.j)) := by
      rw [hcoords]
      simp only [List.mem_flatMap, List.mem_map, List.mem_range]
      refine ⟨(i - Int.floor (lat / t) + R).toNat, by omega,
        (j - Int.floor (lng / t) + R).toNat, by omega, ?_⟩
      simp only [Prod.mk.injEq]
      constructor <;> omega
    obtain ⟨c, hc, heq⟩ := List.mem_map.mp hmem
    simp only [Prod.mk.injEq] at heq
    exact ⟨c, hc, heq.1, heq.2⟩

/-- Instantiation of the exact-arithmetic analysis on the empty board with
tile width 1, radius 1, at the origin point. -/
theorem exact_arith_nearby_nodup_and_range_witness :
    BoardWF emptyBoard ∧ (0 : ℚ) < 1 ∧
    ((getNearbyCells emptyBoard 1 1 0 0).2.Nodup ∧
      (∀ c ∈ (getNearbyCells emptyBoard 1 1 0 0).2,
          |c.i - Int.floor ((0 : ℚ) / 1)| ≤ ((1 : ℕ) : ℤ) ∧
          |c.j - Int.floor ((0 : ℚ) / 1)| ≤ ((1 : ℕ) : ℤ)) ∧
      (∀ i j : ℤ, |i - Int.floor ((0 : ℚ) / 1)| ≤ ((1 : ℕ) : ℤ) →
          |j - Int.floor ((0 : ℚ) / 1)| ≤ ((1 : ℕ) : ℤ) →
          ∃ c ∈ (getNearbyCells emptyBoard 1 1 0 0).2, c.i = i ∧ c.j = j)) := by
  have hwf : BoardWF emptyBoard := by
    intro p hp
    simp [emptyBoard] at hp
  have ht : (0 : ℚ) < 1 := by norm_num
  exact ⟨hwf, ht, exact_arith_nearby_nodup_and_range emptyBoard 1 1 0 0 hwf ht⟩

set_option maxRecDepth 100000 in
set_option maxHeartbeats 16000000 in
/-- C8 (code evaluation at the failing input): under the game's actual
binary64 parameters — tile width `1e-4`, neighborhood radius
`8 * 1e-4` — the float-accumulated loop admits only 16 offsets per axis,
not the 17 the inclusive bound requires: the accumulated value after
sixteen additions of the tile width exceeds `radius` by exactly `2^-62`,
so the iteration for the upper-bound offset `+radius` never runs.
Consequently at the home position the enumeration returns 16 × 16 = 256
samples and the cell `(row0 + 8, col0 + 8)` — within the neighborhood
radius, bounds inclusive — is absent from the result, contradicting exact
inclusive coverage.  (The enumeration also performs no deduplication step
at all, so the "deduplicated set" part of the claim names a step the code
simply does not have.) -/
theorem getNearbyCells_float_skips_inclusive_bound :
    (floatLoopOffsets tileSizeFP gameRadiusFP 64 (fpNeg gameRadiusFP)).length = 16 ∧
    (floatNearbyCellCoords tileSizeFP gameRadiusFP homeLatFP homeLngFP).length = 256 ∧
    (floatCellIndex tileSizeFP homeLatFP + 8, floatCellIndex tileSizeFP homeLngFP + 8)
      ∉ floatNearbyCellCoords tileSizeFP gameRadiusFP homeLatFP homeLngFP := by
  decide
